import Mathlib

/-!
Verification of the storage/labeling layer of the twitter-bot-detection
repository (`src/db_utils.py`), shallowly embedded in Lean 4.

The sqlite `users` table is modelled as a list of records in rowid
(insertion) order; `SELECT ... WHERE` without `ORDER BY` is modelled as a
filter over that list, matching sqlite's scan order for this single-table
schema.  Embedding blobs are lists of bytes; float32 values are modelled by
their 32-bit bit patterns (natural numbers below 2^32), so that
`astype(np.float32).tobytes()` / `np.frombuffer(..., dtype=np.float32)`
become little-endian byte (de)serialization of 32-bit words.  A transaction
that fails before `conn.commit()` is modelled as returning the pre-call
store unchanged (sqlite rolls back the uncommitted transaction when the
connection is dropped).
-/

set_option autoImplicit false

namespace TBD

/-- One row of the `users` table: `user_id text, cluster_id integer,
label integer default 0, embedding blob, PRIMARY KEY (user_id, cluster_id)`. -/
structure Record where
  user_id : String
  cluster_id : Nat
  label : Nat
  embedding : List Nat
  deriving Repr, DecidableEq

/-- The `users` table, in rowid (insertion) order. -/
abbrev Store := List Record

/-- One row of the annotation dataframe handed to `label_users`:
columns `user_id`, `cluster_id`, `label` (a string, normally "Yes"/"No"). -/
structure Annot where
  user_id : String
  cluster_id : Nat
  label : String
  deriving Repr, DecidableEq

/-- First-occurrence deduplication, keeping order: pandas `Series.unique()`. -/
def dedupFirst {α : Type} [DecidableEq α] : List α → List α
  | [] => []
  | x :: xs => x :: (dedupFirst xs).filter (fun y => y ≠ x)

/-- Number of occurrences of `v` in `xs` (pandas `value_counts` for one value). -/
def countOcc (xs : List String) (v : String) : Nat :=
  (xs.filter (fun x => x = v)).length

/-- The label string picked by `cluster_annot['label'].value_counts().idxmax()`:
a value of maximal multiplicity; ties go to the earlier first occurrence. -/
def modeLabel (xs : List String) : String :=
  match dedupFirst xs with
  | [] => ""
  | v :: vs => vs.foldl (fun best u => if countOcc xs best < countOcc xs u then u else best) v

/-- The integer written for an annotation string: `2 if label == 'Yes' else 1`. -/
def labelVal (s : String) : Nat :=
  if s = "Yes" then 2 else 1

/-- The label string of the first row for user `u` among `rows`:
`cluster_annot[cluster_annot['user_id'] == user_id]['label'].values[0]`. -/
def firstLabel (rows : List Annot) (u : String) : String :=
  match (rows.filter (fun a => a.user_id = u)).head? with
  | some a => a.label
  | none => ""

/-- One SQL UPDATE issued by `label_users`: either
`UPDATE users SET label = v WHERE cluster_id = c` or
`UPDATE users SET label = v WHERE user_id = u`. -/
inductive Write where
  | byCluster (c : Nat) (v : Nat)
  | byUser (u : String) (v : Nat)
  deriving Repr, DecidableEq

/-- The value an UPDATE writes into the label column. -/
def Write.val : Write → Nat
  | .byCluster _ v => v
  | .byUser _ v => v

/-- Apply one UPDATE to the table. -/
def applyWrite (s : Store) (w : Write) : Store :=
  match w with
  | .byCluster c v => s.map (fun r => if r.cluster_id = c then { r with label := v } else r)
  | .byUser u v => s.map (fun r => if r.user_id = u then { r with label := v } else r)

/-- The per-user override UPDATEs `label_users` issues while processing
cluster `c`: one `UPDATE ... WHERE user_id = u` per distinct annotated user
of that cluster, in first-appearance order, writing the user's first
annotated label for the cluster.  Note the UPDATE is keyed by `user_id`
alone (no `cluster_id` condition), exactly as in the source. -/
def overrideWrites (annot : List Annot) (c : Nat) : List Write :=
  let rows := annot.filter (fun a => a.cluster_id = c)
  (dedupFirst (rows.map (fun a => a.user_id))).map
    (fun u => Write.byUser u (labelVal (firstLabel rows u)))

/-- All UPDATEs `label_users` issues for cluster `c`: first the majority
write to every record of the cluster, then the per-user overrides. -/
def clusterWrites (annot : List Annot) (c : Nat) : List Write :=
  let rows := annot.filter (fun a => a.cluster_id = c)
  Write.byCluster c (labelVal (modeLabel (rows.map (fun a => a.label)))) ::
    overrideWrites annot c

/-- The full UPDATE sequence of one `label_users` call: clusters in
first-appearance order of `annot_information['cluster_id'].unique()`. -/
def writesFor (annot : List Annot) : List Write :=
  ((dedupFirst (annot.map (fun a => a.cluster_id))).map (clusterWrites annot)).flatten

/-- `label_users(annot_information)`: issue every UPDATE in order.  The
per-cluster commits do not matter in this failure-free model. -/
def label_users (s : Store) (annot : List Annot) : Store :=
  (writesFor annot).foldl applyWrite s

/-- Little-endian bytes of a 32-bit word (numpy float32 `tobytes`). -/
def word32ToBytes (w : Nat) : List Nat :=
  [w % 256, w / 256 % 256, w / (256 * 256) % 256, w / (256 * 256 * 256) % 256]

/-- Serialize a float32 vector (given by bit patterns) to a blob:
`embedding.astype(np.float32).tobytes()`. -/
def encodeF32s (ws : List Nat) : List Nat :=
  (ws.map word32ToBytes).flatten

/-- Split a blob into 4-byte groups (`np.frombuffer` item boundaries). -/
def chunk4 : List Nat → List (List Nat)
  | b0 :: b1 :: b2 :: b3 :: rest => [b0, b1, b2, b3] :: chunk4 rest
  | _ => []

/-- Reassemble a 32-bit word from its little-endian bytes. -/
def bytesToWord32 (bs : List Nat) : Nat :=
  match bs with
  | [b0, b1, b2, b3] => b0 + 256 * b1 + 256 * 256 * b2 + 256 * 256 * 256 * b3
  | _ => 0

/-- Decode a blob back to a float32 vector:
`np.frombuffer(embedding, dtype=np.float32)`. -/
def decodeF32s (bs : List Nat) : List Nat :=
  (chunk4 bs).map bytesToWord32

/-- One cluster entry of the pickled source: an embedding matrix (one row of
float32 bit patterns per user) and the parallel list of raw user-id tokens. -/
def Cluster : Type := List (List Nat) × List String

/-- `INSERT INTO users (user_id, cluster_id, embedding) VALUES (?, ?, ?)`:
fails (constraint violation) when a row with the same primary key
`(user_id, cluster_id)` is already in the table; the label column takes its
default 0. -/
def insertUser (s : Store) (uid : String) (cid : Nat) (blob : List Nat) : Option Store :=
  if s.any (fun r => r.user_id = uid ∧ r.cluster_id = cid) then
    none
  else
    some (s ++ [⟨uid, cid, 0, blob⟩])

/-- The inner loop of `load_clusters` for one cluster: iterate over
`range(len(cluster_userids))`, strip the first character of each raw token
(`cluster_userids[user][1:]`), fetch the matching matrix row
(`cluster_embeds[user]`, an IndexError when the matrix is too short), and
insert.  `none` models the exception paths. -/
def loadUsers (s : Store) (cid : Nat) : List (List Nat) → List String → Option Store
  | _, [] => some s
  | [], _ :: _ => none
  | e :: es, u :: us => do
      let s' ← insertUser s (u.drop 1) cid (encodeF32s e)
      loadUsers s' cid es us

/-- The outer loop of `load_clusters`: `enumerate(clusters)` assigns
sequential cluster ids starting from `cid`. -/
def loadAll (s : Store) (cid : Nat) : List Cluster → Option Store
  | [] => some s
  | (es, us) :: rest => do
      let s' ← loadUsers s cid es us
      loadAll s' (cid + 1) rest

/-- `load_clusters(clusters_path)`: run every insert inside one uncommitted
transaction; on success commit and return `True`, on any exception return
`False` with the transaction rolled back, leaving the table as it was. -/
def load_clusters (s : Store) (clusters : List Cluster) : Bool × Store :=
  match loadAll s 0 clusters with
  | some s' => (true, s')
  | none => (false, s)

/-- `init_database`: a fresh store has an empty `users` table. -/
def init_database : Store := []

/-- `get_cluster_embeddings(cluster_id)`: decode the blob of every row of
the cluster, in table order. -/
def get_cluster_embeddings (s : Store) (c : Nat) : List (List Nat) :=
  (s.filter (fun r => r.cluster_id = c)).map (fun r => decodeF32s r.embedding)

/-- `get_cluster_userids(cluster_id)`: the user ids of the cluster, in
table order. -/
def get_cluster_userids (s : Store) (c : Nat) : List String :=
  (s.filter (fun r => r.cluster_id = c)).map (fun r => r.user_id)

/-- `get_unlabeled_clusters()`: `SELECT DISTINCT cluster_id FROM users WHERE
label = 0`, distinct ids in first-appearance order. -/
def get_unlabeled_clusters (s : Store) : List Nat :=
  dedupFirst ((s.filter (fun r => r.label = 0)).map (fun r => r.cluster_id))

/-- `get_user(user_id)`: `fetchone` of `SELECT * FROM users WHERE user_id = ?`,
the first matching row or `None`. -/
def get_user (s : Store) (uid : String) : Option Record :=
  s.find? (fun r => r.user_id = uid)

/-- Stores reachable from a fresh database through the two mutating
operations of the layer. -/
inductive Reachable : Store → Prop where
  | init : Reachable init_database
  | load (s : Store) (cs : List Cluster) : Reachable s → Reachable (load_clusters s cs).2
  | label (s : Store) (a : List Annot) : Reachable s → Reachable (label_users s a)

/-! ### The UPDATE sequence viewed per record -/

/-- The label column of one record identity `(u, c)` after one UPDATE. -/
def stepL (u : String) (c : Nat) (l : Nat) : Write → Nat
  | .byCluster c' v => if c = c' then v else l
  | .byUser u' v => if u = u' then v else l

/-- Whether an UPDATE's WHERE clause matches the record identity `(u, c)`. -/
def touches (u : String) (c : Nat) : Write → Prop
  | .byCluster c' _ => c = c'
  | .byUser u' _ => u = u'

theorem applyWrite_eq_map (s : Store) (w : Write) :
    applyWrite s w
      = s.map (fun r => { r with label := stepL r.user_id r.cluster_id r.label w }) := by
  cases w with
  | byCluster c v =>
      simp only [applyWrite]
      congr 1
      funext r
      by_cases h : r.cluster_id = c <;> simp [stepL, h]
  | byUser u v =>
      simp only [applyWrite]
      congr 1
      funext r
      by_cases h : r.user_id = u <;> simp [stepL, h]

theorem foldl_applyWrite (ws : List Write) (s : Store) :
    ws.foldl applyWrite s
      = s.map (fun r => { r with label := ws.foldl (stepL r.user_id r.cluster_id) r.label }) := by
  induction ws generalizing s with
  | nil => exact (List.map_id s).symm
  | cons w ws ih =>
      rw [List.foldl_cons, ih, applyWrite_eq_map, List.map_map]
      rfl

theorem foldl_stepL_notouch (u : String) (c : Nat) (ws : List Write) (l : Nat)
    (h : ∀ w ∈ ws, ¬ touches u c w) : ws.foldl (stepL u c) l = l := by
  induction ws generalizing l with
  | nil => rfl
  | cons w ws ih =>
      have hw := h w (by simp)
      have hstep : stepL u c l w = l := by
        cases w with
        | byCluster c' v =>
            simp only [touches] at hw
            simp [stepL, hw]
        | byUser u' v =>
            simp only [touches] at hw
            simp [stepL, hw]
      rw [List.foldl_cons, hstep]
      exact ih l (fun w' hw' => h w' (List.mem_cons_of_mem _ hw'))

theorem foldl_stepL_irrel (u : String) (c : Nat) (ws : List Write)
    (h : ∃ w ∈ ws, touches u c w) (l l' : Nat) :
    ws.foldl (stepL u c) l = ws.foldl (stepL u c) l' := by
  induction ws generalizing l l' with
  | nil => simp at h
  | cons w ws ih =>
      rw [List.foldl_cons, List.foldl_cons]
      by_cases hw : touches u c w
      · have : stepL u c l w = stepL u c l' w := by
          cases w with
          | byCluster c' v =>
              simp only [touches] at hw
              simp [stepL, hw]
          | byUser u' v =>
              simp only [touches] at hw
              simp [stepL, hw]
        rw [this]
      · obtain ⟨w', hw', ht⟩ := h
        rcases List.mem_cons.mp hw' with rfl | hmem
        · exact absurd ht hw
        · exact ih ⟨w', hmem, ht⟩ _ _

theorem mem_of_mem_dedupFirst {α : Type} [DecidableEq α] {xs : List α} {x : α}
    (h : x ∈ dedupFirst xs) : x ∈ xs := by
  induction xs with
  | nil => simp [dedupFirst] at h
  | cons y ys ih =>
      simp only [dedupFirst, List.mem_cons] at h
      rcases h with rfl | h
      · simp
      · exact List.mem_cons_of_mem _ (ih (List.mem_filter.mp h).1)

theorem modeLabel_mem (xs : List String) (h : xs ≠ []) : modeLabel xs ∈ xs := by
  have key : ∀ (vs : List String) (v : String),
      vs.foldl (fun best u => if countOcc xs best < countOcc xs u then u else best) v
        ∈ v :: vs := by
    intro vs
    induction vs with
    | nil => intro v; simp [List.foldl]
    | cons u vs ih =>
        intro v
        rw [List.foldl_cons]
        have h2 := ih (if countOcc xs v < countOcc xs u then u else v)
        by_cases hc : countOcc xs v < countOcc xs u
        · rw [if_pos hc] at h2 ⊢
          exact List.mem_cons_of_mem v h2
        · rw [if_neg hc] at h2 ⊢
          rcases List.mem_cons.mp h2 with h3 | h3
          · exact List.mem_cons.mpr (Or.inl h3)
          · exact List.mem_cons_of_mem _ (List.mem_cons_of_mem _ h3)
  cases hx : xs with
  | nil => exact absurd hx h
  | cons y ys =>
      have hmode : modeLabel xs
          = ((dedupFirst ys).filter (fun z => z ≠ y)).foldl
              (fun best u => if countOcc xs best < countOcc xs u then u else best) y := by
        rw [hx]
        rfl
      rw [← hx, hmode]
      have hk := key ((dedupFirst ys).filter (fun z => z ≠ y)) y
      rcases List.mem_cons.mp hk with h3 | h3
      · rw [h3, hx]; simp
      · have h4 := List.mem_cons_of_mem y (mem_of_mem_dedupFirst (List.mem_of_mem_filter h3))
        rw [← hx] at h4
        exact h4

/-! ### Provenance of rows and of written label values -/

theorem insertUser_mem {s s' : Store} {uid : String} {cid : Nat} {blob : List Nat}
    (h : insertUser s uid cid blob = some s') {r : Record} (hr : r ∈ s') :
    r ∈ s ∨ r.label = 0 := by
  unfold insertUser at h
  split at h
  · cases h
  · injection h with h
    subst h
    rcases List.mem_append.mp hr with h1 | h1
    · exact Or.inl h1
    · right
      have : r = ⟨uid, cid, 0, blob⟩ := by simpa using h1
      rw [this]

theorem loadUsers_mem :
    ∀ (us : List String) (es : List (List Nat)) (s s' : Store) (cid : Nat),
      loadUsers s cid es us = some s' → ∀ r ∈ s', r ∈ s ∨ r.label = 0 := by
  intro us
  induction us with
  | nil =>
      intro es s s' cid h r hr
      cases es <;> (injection h with h; subst h; exact Or.inl hr)
  | cons u us ih =>
      intro es s s' cid h r hr
      cases es with
      | nil => cases h
      | cons e es =>
          simp only [loadUsers, Option.bind_eq_bind] at h
          cases hins : insertUser s (u.drop 1) cid (encodeF32s e) with
          | none => rw [hins] at h; cases h
          | some s1 =>
              rw [hins] at h
              simp only [Option.some_bind] at h
              rcases ih es s1 s' cid h r hr with h1 | h1
              · exact insertUser_mem hins h1
              · exact Or.inr h1

theorem loadAll_mem :
    ∀ (cs : List Cluster) (s s' : Store) (cid : Nat),
      loadAll s cid cs = some s' → ∀ r ∈ s', r ∈ s ∨ r.label = 0 := by
  intro cs
  induction cs with
  | nil =>
      intro s s' cid h r hr
      injection h with h
      subst h
      exact Or.inl hr
  | cons cl cs ih =>
      intro s s' cid h r hr
      obtain ⟨es, us⟩ := cl
      simp only [loadAll, Option.bind_eq_bind] at h
      cases hld : loadUsers s cid es us with
      | none => rw [hld] at h; cases h
      | some s1 =>
          rw [hld] at h
          simp only [Option.some_bind] at h
          rcases ih s1 s' (cid + 1) h r hr with h1 | h1
          · exact loadUsers_mem us es s s1 cid hld r h1
          · exact Or.inr h1

theorem labelVal_one_or_two (t : String) : labelVal t = 1 ∨ labelVal t = 2 := by
  unfold labelVal
  split
  · exact Or.inr rfl
  · exact Or.inl rfl

theorem mem_overrideWrites {annot : List Annot} {c : Nat} {w : Write}
    (h : w ∈ overrideWrites annot c) :
    ∃ u, u ∈ (annot.filter (fun a => a.cluster_id = c)).map (fun a => a.user_id) ∧
      w = Write.byUser u
        (labelVal (firstLabel (annot.filter (fun a => a.cluster_id = c)) u)) := by
  simp only [overrideWrites, List.mem_map] at h
  obtain ⟨u, hu, rfl⟩ := h
  exact ⟨u, mem_of_mem_dedupFirst hu, rfl⟩

theorem writesFor_val (annot : List Annot) (w : Write) (h : w ∈ writesFor annot) :
    w.val = 1 ∨ w.val = 2 := by
  unfold writesFor at h
  rw [List.mem_flatten] at h
  obtain ⟨l, hl, hw⟩ := h
  rw [List.mem_map] at hl
  obtain ⟨c, _, rfl⟩ := hl
  simp only [clusterWrites, List.mem_cons] at hw
  rcases hw with rfl | hw
  · exact labelVal_one_or_two _
  · obtain ⟨u, _, rfl⟩ := mem_overrideWrites hw
    exact labelVal_one_or_two _

theorem foldl_stepL_preserve (P : Nat → Prop) (u : String) (c : Nat) (ws : List Write)
    (l : Nat) (hws : ∀ w ∈ ws, P w.val) (hl : P l) : P (ws.foldl (stepL u c) l) := by
  induction ws generalizing l with
  | nil => exact hl
  | cons w ws ih =>
      rw [List.foldl_cons]
      refine ih (stepL u c l w) (fun w' hw' => hws w' (List.mem_cons_of_mem _ hw')) ?_
      cases w with
      | byCluster c' v =>
          simp only [stepL]
          split
          · exact hws (Write.byCluster c' v) (by simp)
          · exact hl
      | byUser u' v =>
          simp only [stepL]
          split
          · exact hws (Write.byUser u' v) (by simp)
          · exact hl

theorem firstLabel_mem (rows : List Annot) (u : String)
    (h : u ∈ rows.map (fun a => a.user_id)) :
    ∃ a, a ∈ rows ∧ firstLabel rows u = a.label := by
  obtain ⟨a0, ha0, hu⟩ := List.mem_map.mp h
  have hne : rows.filter (fun a => a.user_id = u) ≠ [] := by
    intro hnil
    have hmem : a0 ∈ rows.filter (fun a => a.user_id = u) :=
      List.mem_filter.mpr ⟨ha0, by simp [hu]⟩
    rw [hnil] at hmem
    simp at hmem
  cases hh : (rows.filter (fun a => a.user_id = u)).head? with
  | none => rw [List.head?_eq_none_iff] at hh; exact absurd hh hne
  | some a =>
      refine ⟨a, List.mem_of_mem_filter (List.mem_of_mem_head? (by rw [hh]; rfl)), ?_⟩
      simp [firstLabel, hh]

/-! ### Float32 blob round trip -/

theorem bytesToWord32_word32ToBytes (w : Nat) (h : w < 2 ^ 32) :
    bytesToWord32 (word32ToBytes w) = w := by
  simp only [word32ToBytes, bytesToWord32]
  omega

theorem chunk4_word32ToBytes (w : Nat) (rest : List Nat) :
    chunk4 (word32ToBytes w ++ rest) = word32ToBytes w :: chunk4 rest := rfl

theorem decode_encode (v : List Nat) (hv : ∀ w ∈ v, w < 2 ^ 32) :
    decodeF32s (encodeF32s v) = v := by
  induction v with
  | nil => rfl
  | cons w v ih =>
      have hw := hv w (by simp)
      have hrest : ∀ x ∈ v, x < 2 ^ 32 := fun x hx => hv x (List.mem_cons_of_mem _ hx)
      show decodeF32s (word32ToBytes w ++ encodeF32s v) = w :: v
      simp only [decodeF32s, chunk4_word32ToBytes, List.map_cons]
      rw [bytesToWord32_word32ToBytes w hw]
      exact congrArg (w :: ·) (ih hrest)

/-! ### Claims -/

/-- C2: if `load_clusters` returns `False` (an exception occurred during
parsing or insertion, e.g. a duplicate `(user_id, cluster_id)` key partway
through), the uncommitted transaction is rolled back and the `users` table
afterwards equals the table that existed before the call. -/
theorem c2_load_failure_rolls_back (s : Store) (clusters : List Cluster)
    (h : (load_clusters s clusters).1 = false) :
    (load_clusters s clusters).2 = s := by
  unfold load_clusters at h ⊢
  cases hall : loadAll s 0 clusters with
  | none => rfl
  | some s' => rw [hall] at h; cases h

/-- Witness for C2: loading a source whose single cluster repeats the raw
token "@a" (duplicate primary key on the second row) returns `false` and
leaves the empty store empty. -/
theorem c2_witness :
    (load_clusters [] [([[1], [2]], ["@a", "@a"])]).1 = false ∧
    (load_clusters [] [([[1], [2]], ["@a", "@a"])]).2 = [] :=
  ⟨by decide, c2_load_failure_rolls_back [] [([[1], [2]], ["@a", "@a"])] (by decide)⟩

/-- C4: `label_users` is idempotent — running it a second time with the same
annotation table leaves every record's label exactly as after the first run. -/
theorem c4_label_users_idempotent (s : Store) (annot : List Annot) :
    label_users (label_users s annot) annot = label_users s annot := by
  unfold label_users
  rw [foldl_applyWrite (writesFor annot) s,
    foldl_applyWrite (writesFor annot)
      (List.map (fun r =>
        { r with label := (writesFor annot).foldl (stepL r.user_id r.cluster_id) r.label }) s),
    List.map_map]
  congr 1
  funext r
  show ({ r with label := (writesFor annot).foldl (stepL r.user_id r.cluster_id) ((writesFor annot).foldl (stepL r.user_id r.cluster_id) r.label) } : Record) = _
  have key : (writesFor annot).foldl (stepL r.user_id r.cluster_id)
      ((writesFor annot).foldl (stepL r.user_id r.cluster_id) r.label)
      = (writesFor annot).foldl (stepL r.user_id r.cluster_id) r.label := by
    by_cases h : ∃ w ∈ writesFor annot, touches r.user_id r.cluster_id w
    · exact foldl_stepL_irrel _ _ _ h _ _
    · push_neg at h
      rw [foldl_stepL_notouch _ _ _ _ h, foldl_stepL_notouch _ _ _ _ h]
  rw [key]

/-- C5: `label_users` mutates only the `label` column — at every position of
the table, `user_id`, `cluster_id` and `embedding` are as before the call. -/
theorem c5_label_users_frame (s : Store) (annot : List Annot) (i : Nat) :
    ((label_users s annot)[i]?.map (fun r => r.user_id)) = (s[i]?.map (fun r => r.user_id)) ∧
    ((label_users s annot)[i]?.map (fun r => r.cluster_id))
      = (s[i]?.map (fun r => r.cluster_id)) ∧
    ((label_users s annot)[i]?.map (fun r => r.embedding))
      = (s[i]?.map (fun r => r.embedding)) := by
  unfold label_users
  rw [foldl_applyWrite, List.getElem?_map _ _ i]
  cases s[i]? <;> simp

/-- C6: a float32 vector inserted as a blob by `load_clusters` decodes back
to exactly the same values in the corresponding row of
`get_cluster_embeddings` — serialization followed by decoding is the
identity on 32-bit words. -/
theorem c6_embedding_roundtrip (s : Store) (c i : Nat) (r : Record) (v : List Nat)
    (hv : ∀ w ∈ v, w < 2 ^ 32)
    (hr : (s.filter (fun r => r.cluster_id = c))[i]? = some r)
    (he : r.embedding = encodeF32s v) :
    (get_cluster_embeddings s c)[i]? = some v := by
  unfold get_cluster_embeddings
  rw [List.getElem?_map _ _ i, hr]
  simp [he, decode_encode v hv]

/-- Witness for C6: the bit patterns of the float32 values 1.0, 2.5 and
-3.25 survive the blob round trip of the single row inserted for cluster 0. -/
theorem c6_witness :
    (get_cluster_embeddings
        [⟨"alice", 0, 0, encodeF32s [1065353216, 1075838976, 3226337280]⟩] 0)[0]?
      = some [1065353216, 1075838976, 3226337280] :=
  c6_embedding_roundtrip
    [⟨"alice", 0, 0, encodeF32s [1065353216, 1075838976, 3226337280]⟩] 0 0
    ⟨"alice", 0, 0, encodeF32s [1065353216, 1075838976, 3226337280]⟩
    [1065353216, 1075838976, 3226337280] (by decide) (by decide) rfl

/-- C7: loading two single-user clusters with raw tokens "@alice" then
"@bob" into a fresh store succeeds, numbers the clusters 0 and 1 in source
order, strips the first character of each token, and `get_user "alice"`
returns a record with cluster_id 0 and the default Unassigned label 0. -/
theorem c7_two_cluster_scenario :
    (load_clusters init_database [([[1]], ["@alice"]), ([[2]], ["@bob"])]).1 = true ∧
    get_cluster_userids (load_clusters init_database
        [([[1]], ["@alice"]), ([[2]], ["@bob"])]).2 0 = ["alice"] ∧
    get_cluster_userids (load_clusters init_database
        [([[1]], ["@alice"]), ([[2]], ["@bob"])]).2 1 = ["bob"] ∧
    get_user (load_clusters init_database
        [([[1]], ["@alice"]), ([[2]], ["@bob"])]).2 "alice"
      = some ⟨"alice", 0, 0, encodeF32s [1]⟩ := by
  decide

/-- C8: for every cluster id (member-bearing or not), the embedding matrix
and the user-id list returned by the two cluster queries have the same
number of rows. -/
theorem c8_embeddings_userids_same_length (s : Store) (c : Nat) :
    (get_cluster_embeddings s c).length = (get_cluster_userids s c).length := by
  simp [get_cluster_embeddings, get_cluster_userids]

/-- C1 counterexample: with user "u" present in clusters 0 and 1 and the
single annotation ("u", cluster 0, "Yes"), the override step of cluster 0 is
the single UPDATE keyed by user_id alone; before it, u's record in cluster 1
still has label 0, and after it that record has label 2 — a record of the
same user in a different cluster does not keep its label. -/
theorem c1_counterexample :
    writesFor [⟨"u", 0, "Yes"⟩] = [Write.byCluster 0 2, Write.byUser "u" 2] ∧
    overrideWrites [⟨"u", 0, "Yes"⟩] 0 = [Write.byUser "u" 2] ∧
    ((applyWrite [⟨"u", 0, 0, []⟩, ⟨"u", 1, 0, []⟩] (Write.byCluster 0 2)).find?
        (fun r => r.user_id = "u" ∧ r.cluster_id = 1)).map (fun r => r.label) = some 0 ∧
    (((overrideWrites [⟨"u", 0, "Yes"⟩] 0).foldl applyWrite
        (applyWrite [⟨"u", 0, 0, []⟩, ⟨"u", 1, 0, []⟩] (Write.byCluster 0 2))).find?
        (fun r => r.user_id = "u" ∧ r.cluster_id = 1)).map (fun r => r.label) = some 2 ∧
    ((label_users [⟨"u", 0, 0, []⟩, ⟨"u", 1, 0, []⟩] [⟨"u", 0, "Yes"⟩]).find?
        (fun r => r.user_id = "u" ∧ r.cluster_id = 1)).map (fun r => r.label) = some 2 := by
  decide

/-- C1 as amended: the per-user override step of a cluster changes the label
only of records whose user_id is among the annotated user_ids of that
cluster — a record of any other user_id (in any cluster) is left exactly as
it was; records of an annotated user_id are updated in every cluster they
appear in, because the UPDATE is keyed by user_id alone. -/
theorem c1_override_updates_by_userid (annot : List Annot) (c : Nat) (s : Store)
    (i : Nat) (r : Record) (hi : s[i]? = some r)
    (hu : r.user_id ∉ (annot.filter (fun a => a.cluster_id = c)).map (fun a => a.user_id)) :
    ((overrideWrites annot c).foldl applyWrite s)[i]? = some r := by
  rw [foldl_applyWrite, List.getElem?_map _ _ i, hi]
  have hno : ∀ w ∈ overrideWrites annot c, ¬ touches r.user_id r.cluster_id w := by
    intro w hw
    obtain ⟨u, hu', rfl⟩ := mem_overrideWrites hw
    simp only [touches]
    intro heq
    exact hu (heq ▸ hu')
  show some ({ r with label := (overrideWrites annot c).foldl (stepL r.user_id r.cluster_id) r.label } : Record) = some r
  rw [foldl_stepL_notouch _ _ _ _ hno]

/-- Witness for C1 (amended): the record of the unannotated user "v" at
position 1 of the store is untouched by the override step of cluster 0. -/
theorem c1_witness :
    ((overrideWrites [⟨"u", 0, "Yes"⟩] 0).foldl applyWrite
        [⟨"u", 0, 0, []⟩, ⟨"v", 1, 0, []⟩])[1]? = some ⟨"v", 1, 0, []⟩ :=
  c1_override_updates_by_userid [⟨"u", 0, "Yes"⟩] 0 [⟨"u", 0, 0, []⟩, ⟨"v", 1, 0, []⟩] 1
    ⟨"v", 1, 0, []⟩ (by decide) (by decide)

/-- C3 counterexample: the annotation table, restricted to cluster 5, is
exactly [Yes, Yes, No] from three distinct users all present in cluster 5,
yet because the table also annotates user "c" with "Yes" in cluster 9, the
override of cluster 9 (keyed by user_id alone) overwrites c's cluster-5
record too: the "No" voter's record in cluster 5 ends with label 2, not 1. -/
theorem c3_counterexample :
    (([⟨"a", 5, "Yes"⟩, ⟨"b", 5, "Yes"⟩, ⟨"c", 5, "No"⟩, ⟨"c", 9, "Yes"⟩] : List Annot).filter
        (fun a => a.cluster_id = 5))
      = [⟨"a", 5, "Yes"⟩, ⟨"b", 5, "Yes"⟩, ⟨"c", 5, "No"⟩] ∧
    ((label_users [⟨"a", 5, 0, []⟩, ⟨"b", 5, 0, []⟩, ⟨"c", 5, 0, []⟩, ⟨"d", 5, 0, []⟩,
          ⟨"c", 9, 0, []⟩]
        [⟨"a", 5, "Yes"⟩, ⟨"b", 5, "Yes"⟩, ⟨"c", 5, "No"⟩, ⟨"c", 9, "Yes"⟩]).find?
        (fun r => r.user_id = "c" ∧ r.cluster_id = 5)).map (fun r => r.label) = some 2 := by
  decide

theorem writesFor_c3 (a b d : String) (hab : a ≠ b) (had : a ≠ d) (hbd : b ≠ d) :
    writesFor [⟨a, 5, "Yes"⟩, ⟨b, 5, "Yes"⟩, ⟨d, 5, "No"⟩]
      = [Write.byCluster 5 2, Write.byUser a 2, Write.byUser b 2, Write.byUser d 1] := by
  have hba : b ≠ a := hab.symm
  have hda : d ≠ a := had.symm
  have hdb : d ≠ b := hbd.symm
  simp [writesFor, dedupFirst, clusterWrites, overrideWrites, modeLabel, countOcc,
    labelVal, firstLabel, hab, had, hbd, hba, hda, hdb]

/-- C3 as amended: when the annotation table consists of exactly the three
cluster-5 rows [Yes, Yes, No] from three distinct users (no rows for other
clusters), every record of cluster 5 whose user is not one of the three ends
with label Bot(2), and the "No" voter's record in cluster 5 ends with label
NotBot(1).  (With further rows for other clusters in the same table, the
user-keyed override of a later cluster can overwrite cluster-5 records, as
the counterexample shows.) -/
theorem c3_majority_vote (s : Store) (a b d : String)
    (hab : a ≠ b) (had : a ≠ d) (hbd : b ≠ d) (r : Record)
    (hr : r ∈ label_users s [⟨a, 5, "Yes"⟩, ⟨b, 5, "Yes"⟩, ⟨d, 5, "No"⟩])
    (h5 : r.cluster_id = 5) :
    (r.user_id ≠ a → r.user_id ≠ b → r.user_id ≠ d → r.label = 2) ∧
    (r.user_id = d → r.label = 1) := by
  unfold label_users at hr
  rw [writesFor_c3 a b d hab had hbd, foldl_applyWrite, List.mem_map] at hr
  obtain ⟨r0, hr0, rfl⟩ := hr
  have h5' : r0.cluster_id = 5 := h5
  constructor
  · intro h1 h2 h3
    have h3' : r0.user_id ≠ d := h3
    show List.foldl (stepL r0.user_id r0.cluster_id) r0.label _ = 2
    simp [List.foldl, stepL, h5', h3']
  · intro h1
    have h1' : r0.user_id = d := h1
    show List.foldl (stepL r0.user_id r0.cluster_id) r0.label _ = 1
    simp [List.foldl, stepL, h5', h1']

/-- Witness for C3 (amended): in a store holding users "c" and "d" in
cluster 5, annotating a, b with Yes and c with No leaves c's record (the
"No" voter) with label 1. -/
theorem c3_witness :
    ("a" : String) ≠ "b" ∧ (⟨"c", 5, 1, []⟩ : Record).label = 1 :=
  ⟨by decide,
    (c3_majority_vote [⟨"c", 5, 0, []⟩, ⟨"d", 5, 0, []⟩] "a" "b" "c" (by decide) (by decide)
      (by decide) ⟨"c", 5, 1, []⟩ (by decide) rfl).2 rfl⟩

/-- C9: in every store reachable from a fresh database through
`load_clusters` and `label_users`, each record's label is one of
Unassigned(0), NotBot(1), Bot(2) — rows are created with the default 0 and
every UPDATE writes 1 or 2. -/
theorem c9_label_invariant (s : Store) (hs : Reachable s) :
    ∀ r ∈ s, r.label = 0 ∨ r.label = 1 ∨ r.label = 2 := by
  induction hs with
  | init =>
      intro r hr
      simp [init_database] at hr
  | load s0 cs hs0 ih =>
      intro r hr
      unfold load_clusters at hr
      cases hall : loadAll s0 0 cs with
      | none =>
          rw [hall] at hr
          exact ih r hr
      | some s' =>
          rw [hall] at hr
          rcases loadAll_mem cs s0 s' 0 hall r hr with h | h
          · exact ih r h
          · exact Or.inl h
  | label s0 a hs0 ih =>
      intro r hr
      unfold label_users at hr
      rw [foldl_applyWrite, List.mem_map] at hr
      obtain ⟨r0, hr0, rfl⟩ := hr
      refine foldl_stepL_preserve (fun n => n = 0 ∨ n = 1 ∨ n = 2) r0.user_id r0.cluster_id
        (writesFor a) r0.label ?_ (ih r0 hr0)
      intro w hw
      rcases writesFor_val a w hw with h | h
      · exact Or.inr (Or.inl h)
      · exact Or.inr (Or.inr h)

/-- Witness for C9: the single record of a store reached by one load of
"@u" followed by one `label_users` call annotating u "Yes" has its label
among the three enumerated values. -/
theorem c9_witness :
    (⟨"u", 0, 2, [1, 0, 0, 0]⟩ : Record).label = 0 ∨
    (⟨"u", 0, 2, [1, 0, 0, 0]⟩ : Record).label = 1 ∨
    (⟨"u", 0, 2, [1, 0, 0, 0]⟩ : Record).label = 2 :=
  c9_label_invariant
    (label_users (load_clusters init_database [([[1]], ["@u"])]).2 [⟨"u", 0, "Yes"⟩])
    (Reachable.label (load_clusters init_database [([[1]], ["@u"])]).2 [⟨"u", 0, "Yes"⟩]
      (Reachable.load init_database [([[1]], ["@u"])] Reachable.init))
    ⟨"u", 0, 2, [1, 0, 0, 0]⟩ (by decide)

/-- C10: the value written by every UPDATE of `label_users` — the cluster
majority write and the per-user override alike — is `labelVal` of the label
string of some row of the annotation table, and `labelVal` maps exactly the
string "Yes" to Bot(2) and every other string (not only "No") to NotBot(1);
no label string is rejected. -/
theorem c10_yes_maps_to_bot :
    (∀ t : String, (labelVal t = 2 ↔ t = "Yes") ∧ (t ≠ "Yes" → labelVal t = 1)) ∧
    (∀ (annot : List Annot) (w : Write), w ∈ writesFor annot →
      ∃ a, a ∈ annot ∧ w.val = labelVal a.label) := by
  constructor
  · intro t
    constructor
    · unfold labelVal
      split
      · simp_all
      · simp_all
    · intro ht
      unfold labelVal
      rw [if_neg ht]
  · intro annot w hw
    unfold writesFor at hw
    rw [List.mem_flatten] at hw
    obtain ⟨l, hl, hw⟩ := hw
    rw [List.mem_map] at hl
    obtain ⟨c, hc, rfl⟩ := hl
    have hrows : ∃ a, a ∈ annot.filter (fun a => a.cluster_id = c) := by
      obtain ⟨a0, ha0, hac⟩ := List.mem_map.mp (mem_of_mem_dedupFirst hc)
      exact ⟨a0, List.mem_filter.mpr ⟨ha0, by simp [hac]⟩⟩
    simp only [clusterWrites, List.mem_cons] at hw
    rcases hw with rfl | hw
    · obtain ⟨a0, ha0⟩ := hrows
      have hne : (annot.filter (fun a => a.cluster_id = c)).map (fun a => a.label) ≠ [] := by
        intro hnil
        have : a0.label ∈ (annot.filter (fun a => a.cluster_id = c)).map (fun a => a.label) :=
          List.mem_map.mpr ⟨a0, ha0, rfl⟩
        rw [hnil] at this
        simp at this
      obtain ⟨a1, ha1, hlab⟩ := List.mem_map.mp (modeLabel_mem _ hne)
      exact ⟨a1, List.mem_of_mem_filter ha1, by rw [← hlab]; rfl⟩
    · obtain ⟨u, hu, rfl⟩ := mem_overrideWrites hw
      obtain ⟨a1, ha1, hlab⟩ := firstLabel_mem (annot.filter (fun a => a.cluster_id = c)) u hu
      exact ⟨a1, List.mem_of_mem_filter ha1, by rw [hlab]; rfl⟩

/-- Witness for C10: the majority write produced for the sole cluster of the
table whose only label string is "Maybe" carries `labelVal "Maybe"` (= 1) of
that row — a value outside {"Yes","No"} is processed, not rejected. -/
theorem c10_witness :
    Write.byCluster 0 1 ∈ writesFor [⟨"u", 0, "Maybe"⟩] ∧
    ∃ a, a ∈ ([⟨"u", 0, "Maybe"⟩] : List Annot) ∧
      (Write.byCluster 0 1).val = labelVal a.label :=
  ⟨by decide, c10_yes_maps_to_bot.2 [⟨"u", 0, "Maybe"⟩] (Write.byCluster 0 1) (by decide)⟩

end TBD
